import Mathlib

/-!
# Verification of the Pathway router core (`src/pathway.router.js`)

Shallow embedding of the navigation/caching engine:

* the bounded content cache with LRU eviction (`__get`, `__set`,
  `getLeastRecent`, `getMostRecent`),
* the fetch pipeline (`fetchLink`, `waitFetch`, `cacheResponse`,
  status classification via `roundCodeNumber`),
* the history stack recording in `updateDocument`,
* the navigation controller (`navigate`, `isLoading` guard) and the
  asynchronous scheduling of timers and network responses as an explicit
  event-step system.

JS `Map` iteration order is insertion order, so the cache is modelled as an
association list whose head is the oldest (least recently inserted) binding.
-/

/-- A cached page fragment: `{title, content, url}` as built by
`cacheResponse`.  The DOM fragment is opaque; we give it a numeric
identity. -/
structure CacheEntry where
  url : String
  title : String
  content : Nat
deriving Repr, DecidableEq

/-- The content cache: a JS `Map` from URL to entry, head = oldest. -/
abbrev Cache := List (String × CacheEntry)

/-- JS `Map.prototype.get` (first binding of the key). -/
def lookupKey {α : Type} (k : String) : List (String × α) → Option α
  | [] => none
  | p :: rest => if p.1 = k then some p.2 else lookupKey k rest

/-- JS `Map.prototype.delete` (keys are unique in a `Map`, so removing
every binding of `k` is the same as removing the one binding). -/
def eraseKey {α : Type} (k : String) : List (String × α) → List (String × α)
  | [] => []
  | p :: rest => if p.1 = k then eraseKey k rest else p :: eraseKey k rest

/-- JS `Map.prototype.has`. -/
def hasKey {α : Type} (k : String) (c : List (String × α)) : Bool :=
  (lookupKey k c).isSome

/-- Embedding of `Pathway.prototype.__get`: on a hit the binding is
deleted and re-inserted at the recent end; a miss returns `undefined` and
leaves the map untouched. -/
def cacheGet (c : Cache) (k : String) : Option CacheEntry × Cache :=
  match lookupKey k c with
  | none => (none, c)
  | some v => (some v, eraseKey k c ++ [(k, v)])

/-- Embedding of `Pathway.prototype.__set`: delete the key, then if
`cacheCapacity <= 0` return the value without retaining it; if the map is
at capacity delete the first (oldest) key before inserting at the recent
end.  Returns the value exactly as the source does. -/
def cacheSet (cap : Int) (c : Cache) (k : String) (v : CacheEntry) :
    CacheEntry × Cache :=
  let c1 := eraseKey k c
  if cap ≤ 0 then (v, c1)
  else if (c1.length : Int) = cap then (v, c1.drop 1 ++ [(k, v)])
  else (v, c1 ++ [(k, v)])

/-- Embedding of `Pathway.prototype.getLeastRecent`:
`Array.from(this.cache)[0]`. -/
def getLeastRecent (l : Cache) : Option (String × CacheEntry) :=
  l.get? 0

/-- Embedding of `Pathway.prototype.getMostRecent`:
`Array.from(this.cache)[this.cache.size - 1]`. -/
def getMostRecent (l : Cache) : Option (String × CacheEntry) :=
  l.get? (l.length - 1)

/-- An abstract cache operation: a `__get` or a `__set`. -/
inductive CacheOp where
  | get (k : String)
  | put (k : String) (v : CacheEntry)
deriving Repr, DecidableEq

/-- One cache operation acting on the cache state. -/
def cacheStep (cap : Int) (c : Cache) : CacheOp → Cache
  | CacheOp.get k => (cacheGet c k).2
  | CacheOp.put k v => (cacheSet cap c k v).2

/-- Run a sequence of cache operations from the empty cache. -/
def cacheRun (cap : Int) (ops : List CacheOp) : Cache :=
  ops.foldl (cacheStep cap) []

example : cacheRun 2 [CacheOp.put "A" ⟨"A", "a", 0⟩, CacheOp.put "B" ⟨"B", "b", 1⟩,
    CacheOp.get "A", CacheOp.put "C" ⟨"C", "c", 2⟩] =
    [("A", ⟨"A", "a", 0⟩), ("C", ⟨"C", "c", 2⟩)] := by decide

example : getLeastRecent (cacheRun 2 [CacheOp.put "A" ⟨"A", "a", 0⟩,
    CacheOp.put "B" ⟨"B", "b", 1⟩]) = some ("A", ⟨"A", "a", 0⟩) := by decide

/-! ## Ghost-instrumented cache

To state the LRU property we replay the same algorithm while stamping every
binding with the index of the operation that last touched it.  Stripping the
stamps recovers the source-faithful model above. -/

/-- Cache bindings stamped with the index of their last touch. -/
abbrev TCache := List (String × (CacheEntry × Nat))

/-- Forget the touch stamps. -/
def stripT (c : TCache) : Cache :=
  c.map (fun p => (p.1, p.2.1))

/-- The instrumented step: identical branching to `cacheGet`/`cacheSet`,
with the current operation index `t` stamped on the touched binding. -/
def tstep (cap : Int) (t : Nat) (c : TCache) : CacheOp → TCache
  | CacheOp.get k =>
    match lookupKey k c with
    | none => c
    | some v => eraseKey k c ++ [(k, (v.1, t))]
  | CacheOp.put k v =>
    let c1 := eraseKey k c
    if cap ≤ 0 then c1
    else if (c1.length : Int) = cap then c1.drop 1 ++ [(k, (v, t))]
    else c1 ++ [(k, (v, t))]

/-- Run the instrumented cache from state `c`, the next operation having
index `t`. -/
def trunFrom (cap : Int) (t : Nat) (c : TCache) : List CacheOp → TCache
  | [] => c
  | op :: rest => trunFrom cap (t + 1) (tstep cap t c op) rest

/-- Run the instrumented cache from the empty state. -/
def trun (cap : Int) (ops : List CacheOp) : TCache :=
  trunFrom cap 0 [] ops

/-- `op i` is a touch of key `k`: a `put` of `k`, or a `get` of `k` that
hits (the key is present just before the operation). -/
def touches (cap : Int) (ops : List CacheOp) (i : Nat) (k : String) : Bool :=
  match ops.get? i with
  | some (CacheOp.put k2 _) => k2 = k
  | some (CacheOp.get k2) => k2 = k && hasKey k (trun cap (ops.take i))
  | none => false

/-- Indices of the operations that touch `k`. -/
def touchIdxs (cap : Int) (ops : List CacheOp) (k : String) : List Nat :=
  (List.range ops.length).filter (fun i => touches cap ops i k)

/-- The index of the last operation that touched `k` (0 if never touched). -/
def lastTouch (cap : Int) (ops : List CacheOp) (k : String) : Nat :=
  (touchIdxs cap ops k).foldl Nat.max 0

/-! ### Association-list lemmas -/

theorem lookupKey_map {α β : Type} (f : α → β) (k : String) :
    ∀ c : List (String × α),
      lookupKey k (c.map (fun p => (p.1, f p.2))) = (lookupKey k c).map f := by
  intro c
  induction c with
  | nil => rfl
  | cons p rest ih =>
    by_cases h : p.1 = k <;> simp [lookupKey, h, ih]

theorem eraseKey_map {α β : Type} (f : α → β) (k : String) :
    ∀ c : List (String × α),
      eraseKey k (c.map (fun p => (p.1, f p.2))) =
        (eraseKey k c).map (fun p => (p.1, f p.2)) := by
  intro c
  induction c with
  | nil => rfl
  | cons p rest ih =>
    by_cases h : p.1 = k <;> simp [eraseKey, h, ih]

theorem eraseKey_sublist {α : Type} (k : String) :
    ∀ c : List (String × α), (eraseKey k c).Sublist c := by
  intro c
  induction c with
  | nil => exact List.Sublist.refl _
  | cons p rest ih =>
    by_cases h : p.1 = k
    · simpa [eraseKey, h] using ih.cons p
    · simpa [eraseKey, h] using ih.cons₂ p

theorem mem_eraseKey {α : Type} (k : String) (c : List (String × α))
    (p : String × α) : p ∈ eraseKey k c ↔ p ∈ c ∧ p.1 ≠ k := by
  induction c with
  | nil => simp [eraseKey]
  | cons q rest ih =>
    by_cases h : q.1 = k
    · simp only [eraseKey, if_pos h, ih, List.mem_cons]
      constructor
      · rintro ⟨hp, hne⟩; exact ⟨Or.inr hp, hne⟩
      · rintro ⟨hp | hp, hne⟩
        · subst hp; exact absurd h hne
        · exact ⟨hp, hne⟩
    · simp only [eraseKey, if_neg h, List.mem_cons, ih]
      constructor
      · rintro (hp | ⟨hp, hne⟩)
        · subst hp; exact ⟨Or.inl rfl, h⟩
        · exact ⟨Or.inr hp, hne⟩
      · rintro ⟨hp | hp, hne⟩
        · exact Or.inl hp
        · exact Or.inr ⟨hp, hne⟩

theorem not_mem_keys_eraseKey {α : Type} (k : String) (c : List (String × α)) :
    k ∉ (eraseKey k c).map Prod.fst := by
  intro hk
  rcases List.mem_map.mp hk with ⟨p, hp, hpk⟩
  exact ((mem_eraseKey k c p).mp hp).2 hpk

theorem lookupKey_isSome_iff {α : Type} (k : String) (c : List (String × α)) :
    (lookupKey k c).isSome = true ↔ k ∈ c.map Prod.fst := by
  induction c with
  | nil => simp [lookupKey]
  | cons p rest ih =>
    by_cases h : p.1 = k
    · simp [lookupKey, h]
    · simp only [lookupKey, if_neg h, List.map_cons, List.mem_cons, ih]
      constructor
      · intro hm; exact Or.inr hm
      · rintro (hm | hm)
        · exact absurd hm.symm h
        · exact hm

theorem length_eraseKey_le {α : Type} (k : String) (c : List (String × α)) :
    (eraseKey k c).length ≤ c.length :=
  (eraseKey_sublist k c).length_le

theorem length_eraseKey_lt {α : Type} (k : String) (c : List (String × α))
    (h : (lookupKey k c).isSome = true) :
    (eraseKey k c).length < c.length := by
  induction c with
  | nil => simp [lookupKey] at h
  | cons p rest ih =>
    by_cases hp : p.1 = k
    · simp only [eraseKey, if_pos hp, List.length_cons]
      exact Nat.lt_succ_of_le (length_eraseKey_le k rest)
    · simp only [lookupKey, if_neg hp] at h
      simp only [eraseKey, if_neg hp, List.length_cons]
      exact Nat.succ_lt_succ (ih h)

/-! ### The instrumented run erases to the source-faithful run -/

theorem stripT_append (c d : TCache) : stripT (c ++ d) = stripT c ++ stripT d := by
  simp [stripT]

theorem stripT_drop (c : TCache) (n : Nat) :
    stripT (c.drop n) = (stripT c).drop n := by
  simp [stripT, List.map_drop]

theorem stripT_length (c : TCache) : (stripT c).length = c.length := by
  simp [stripT]

theorem lookupKey_stripT (k : String) (c : TCache) :
    lookupKey k (stripT c) = (lookupKey k c).map Prod.fst := by
  simpa [stripT] using lookupKey_map (α := CacheEntry × Nat) Prod.fst k c

theorem eraseKey_stripT (k : String) (c : TCache) :
    eraseKey k (stripT c) = stripT (eraseKey k c) := by
  simpa [stripT] using eraseKey_map (α := CacheEntry × Nat) Prod.fst k c

theorem stripT_tstep (cap : Int) (t : Nat) (c : TCache) (op : CacheOp) :
    stripT (tstep cap t c op) = cacheStep cap (stripT c) op := by
  cases op with
  | get k =>
    cases hlk : lookupKey k c with
    | none =>
      have h1 : lookupKey k (stripT c) = none := by
        rw [lookupKey_stripT, hlk]; rfl
      simp [tstep, cacheStep, cacheGet, hlk, h1]
    | some v =>
      have h1 : lookupKey k (stripT c) = some v.1 := by
        rw [lookupKey_stripT, hlk]; rfl
      simp only [tstep, cacheStep, cacheGet, hlk, h1]
      rw [stripT_append, eraseKey_stripT]
      rfl
  | put k v =>
    have he : eraseKey k (stripT c) = stripT (eraseKey k c) := eraseKey_stripT k c
    by_cases hcap : cap ≤ 0
    · simp only [tstep, cacheStep, cacheSet, if_pos hcap, he]
    · by_cases hlen : ((eraseKey k c).length : Int) = cap
      · simp only [tstep, cacheStep, cacheSet, if_neg hcap, if_pos hlen, he]
        rw [stripT_append, stripT_drop, stripT_length, if_pos hlen]
        rfl
      · simp only [tstep, cacheStep, cacheSet, if_neg hcap, if_neg hlen, he]
        rw [stripT_append, stripT_length, if_neg hlen]
        rfl

theorem trunFrom_strip (cap : Int) (ops : List CacheOp) :
    ∀ (t : Nat) (c : TCache),
      stripT (trunFrom cap t c ops) = ops.foldl (cacheStep cap) (stripT c) := by
  induction ops with
  | nil => intro t c; rfl
  | cons op rest ih =>
    intro t c
    simp only [trunFrom, List.foldl_cons, ih, stripT_tstep]

theorem trun_strip (cap : Int) (ops : List CacheOp) :
    stripT (trun cap ops) = cacheRun cap ops := by
  simpa [trun, stripT, cacheRun] using trunFrom_strip cap ops 0 []

/-! ### Run and touch lemmas for appending one operation -/

theorem trunFrom_append (cap : Int) (l : List CacheOp) (op : CacheOp) :
    ∀ (t : Nat) (c : TCache),
      trunFrom cap t c (l ++ [op]) =
        tstep cap (t + l.length) (trunFrom cap t c l) op := by
  induction l with
  | nil => intro t c; simp [trunFrom]
  | cons x rest ih =>
    intro t c
    show trunFrom cap (t + 1) (tstep cap t c x) (rest ++ [op]) =
      tstep cap (t + (rest.length + 1)) (trunFrom cap (t + 1) (tstep cap t c x) rest) op
    rw [ih]
    congr 1
    omega

theorem trun_append (cap : Int) (ops : List CacheOp) (op : CacheOp) :
    trun cap (ops ++ [op]) = tstep cap ops.length (trun cap ops) op := by
  simpa [trun] using trunFrom_append cap ops op 0 []

theorem take_append_one {α : Type} (l : List α) (x : α) (i : Nat)
    (h : i ≤ l.length) : (l ++ [x]).take i = l.take i := by
  rw [List.take_append_of_le_length h]

theorem touches_append (cap : Int) (ops : List CacheOp) (op : CacheOp)
    (i : Nat) (hi : i < ops.length) (k : String) :
    touches cap (ops ++ [op]) i k = touches cap ops i k := by
  unfold touches
  rw [List.get?_append hi, take_append_one _ _ _ (Nat.le_of_lt hi)]

theorem touches_at_end (cap : Int) (ops : List CacheOp) (op : CacheOp)
    (k : String) :
    touches cap (ops ++ [op]) ops.length k =
      (match op with
       | CacheOp.put k2 _ => decide (k2 = k)
       | CacheOp.get k2 => decide (k2 = k) && hasKey k (trun cap ops)) := by
  unfold touches
  rw [List.get?_concat_length, take_append_one _ _ _ (Nat.le_refl _)]
  cases op <;> simp

theorem touches_beyond (cap : Int) (ops : List CacheOp) (i : Nat)
    (hi : ops.length ≤ i) (k : String) : touches cap ops i k = false := by
  unfold touches
  rw [List.get?_eq_none.mpr hi]

/-! ### Folded maximum -/

theorem le_foldl_max (l : List Nat) : ∀ a : Nat, a ≤ l.foldl Nat.max a := by
  induction l with
  | nil => intro a; exact Nat.le_refl a
  | cons x rest ih =>
    intro a
    exact Nat.le_trans (Nat.le_max_left a x) (ih (Nat.max a x))

theorem mem_le_foldl_max (l : List Nat) (x : Nat) (hx : x ∈ l) :
    ∀ a : Nat, x ≤ l.foldl Nat.max a := by
  induction l with
  | nil => cases hx
  | cons y rest ih =>
    intro a
    rcases List.mem_cons.mp hx with h | h
    · subst h
      exact Nat.le_trans (Nat.le_max_right a x) (le_foldl_max rest _)
    · exact ih h _

theorem foldl_max_le (l : List Nat) (t : Nat) (hl : ∀ x ∈ l, x ≤ t) :
    ∀ a : Nat, a ≤ t → l.foldl Nat.max a ≤ t := by
  induction l with
  | nil => intro a ha; exact ha
  | cons y rest ih =>
    intro a ha
    refine ih (fun x hx => hl x (List.mem_cons_of_mem _ hx)) _ ?_
    exact Nat.max_le.mpr ⟨ha, hl y (List.mem_cons_self _ _)⟩

/-- Timing facts about one binding survive appending an operation that does
not touch its key. -/
theorem times_extend (cap : Int) (ops : List CacheOp) (op : CacheOp)
    (p : String × (CacheEntry × Nat))
    (h1 : p.2.2 < ops.length)
    (h2 : touches cap ops p.2.2 p.1 = true)
    (h3 : ∀ j, p.2.2 < j → touches cap ops j p.1 = false)
    (hend : touches cap (ops ++ [op]) ops.length p.1 = false) :
    p.2.2 < (ops ++ [op]).length ∧
    touches cap (ops ++ [op]) p.2.2 p.1 = true ∧
    ∀ j, p.2.2 < j → touches cap (ops ++ [op]) j p.1 = false := by
  refine ⟨by simp only [List.length_append, List.length_singleton]; omega, ?_, ?_⟩
  · rw [touches_append cap ops op _ h1]; exact h2
  · intro j hj
    rcases Nat.lt_trichotomy j ops.length with hlt | heq | hgt
    · rw [touches_append cap ops op _ hlt]; exact h3 j hj
    · subst heq; exact hend
    · exact touches_beyond cap _ j
        (by simp only [List.length_append, List.length_singleton]; omega) p.1

theorem lastTouch_eq (cap : Int) (ops : List CacheOp) (k : String) (t : Nat)
    (ht : touches cap ops t k = true)
    (hlast : ∀ j, t < j → touches cap ops j k = false)
    (hlt : t < ops.length) : lastTouch cap ops k = t := by
  unfold lastTouch
  have hmem : t ∈ touchIdxs cap ops k := by
    unfold touchIdxs
    exact List.mem_filter.mpr ⟨List.mem_range.mpr hlt, ht⟩
  have hle : ∀ x ∈ touchIdxs cap ops k, x ≤ t := by
    intro x hx
    rcases List.mem_filter.mp hx with ⟨-, hxt⟩
    by_contra hgt
    rw [hlast x (Nat.lt_of_not_le hgt)] at hxt
    cases hxt
  exact Nat.le_antisymm
    (foldl_max_le _ t hle 0 (Nat.zero_le t))
    (mem_le_foldl_max _ t hmem 0)

/-! ### The LRU invariant -/

/-- Invariant of the instrumented run: the cache respects the capacity,
keys are unique, bindings are ordered by strictly increasing last-touch
stamp, and every stamp is the index of the genuinely last touch of its
key. -/
structure LruInv (cap : Int) (ops : List CacheOp) : Prop where
  bound : ((trun cap ops).length : Int) ≤ cap
  nodup : ((trun cap ops).map Prod.fst).Nodup
  sorted : (trun cap ops).Pairwise (fun a b => a.2.2 < b.2.2)
  times : ∀ p ∈ trun cap ops, p.2.2 < ops.length ∧
    touches cap ops p.2.2 p.1 = true ∧
    ∀ j, p.2.2 < j → touches cap ops j p.1 = false

theorem lruInv_nil (cap : Int) (hcap : 1 ≤ cap) : LruInv cap [] := by
  refine ⟨?_, ?_, ?_, ?_⟩ <;> simp [trun, trunFrom]
  omega

theorem lruInv_snoc (cap : Int) (hcap : 1 ≤ cap) (ops : List CacheOp)
    (op : CacheOp) (ih : LruInv cap ops) : LruInv cap (ops ++ [op]) := by
  have hrun := trun_append cap ops op
  have hlen' : (ops ++ [op]).length = ops.length + 1 := by simp
  cases op with
  | get k =>
    cases hlk : lookupKey k (trun cap ops) with
    | none =>
      have hstate : trun cap (ops ++ [CacheOp.get k]) = trun cap ops := by
        rw [hrun]; simp [tstep, hlk]
      have hne : ∀ p ∈ trun cap ops, p.1 ≠ k := by
        intro p hp hpk
        have : (lookupKey k (trun cap ops)).isSome = true :=
          (lookupKey_isSome_iff k _).mpr (hpk ▸ List.mem_map_of_mem Prod.fst hp)
        rw [hlk] at this; cases this
      refine ⟨?_, ?_, ?_, ?_⟩
      · rw [hstate]; exact ih.bound
      · rw [hstate]; exact ih.nodup
      · rw [hstate]; exact ih.sorted
      · rw [hstate]
        intro p hp
        obtain ⟨h1, h2, h3⟩ := ih.times p hp
        refine times_extend cap ops _ p h1 h2 h3 ?_
        rw [touches_at_end]
        have hk : hasKey p.1 (trun cap ops) = true :=
          (lookupKey_isSome_iff p.1 _).mpr (List.mem_map_of_mem Prod.fst hp)
        by_cases hkp : k = p.1
        · subst hkp
          simp [hasKey, hlk]
        · simp [hkp]
    | some v =>
      have hstate : trun cap (ops ++ [CacheOp.get k]) =
          eraseKey k (trun cap ops) ++ [(k, (v.1, ops.length))] := by
        rw [hrun]; simp [tstep, hlk]
      have hsub : (eraseKey k (trun cap ops)).Sublist (trun cap ops) :=
        eraseKey_sublist k _
      refine ⟨?_, ?_, ?_, ?_⟩
      · rw [hstate]
        have hlt : (eraseKey k (trun cap ops)).length < (trun cap ops).length :=
          length_eraseKey_lt k _ (by rw [hlk]; rfl)
        have := ih.bound
        simp only [List.length_append, List.length_singleton]
        omega
      · rw [hstate]
        simp only [List.map_append, List.map_cons, List.map_nil]
        rw [List.nodup_append]
        refine ⟨ih.nodup.sublist (hsub.map Prod.fst), List.nodup_singleton k, ?_⟩
        intro a ha hb
        rw [List.mem_singleton] at hb
        exact not_mem_keys_eraseKey k _ (hb ▸ ha)
      · rw [hstate]
        rw [List.pairwise_append]
        refine ⟨ih.sorted.sublist hsub, List.pairwise_singleton _ _, ?_⟩
        intro a ha b hb
        rw [List.mem_singleton] at hb
        subst hb
        have := (ih.times a ((mem_eraseKey k _ a).mp ha).1).1
        simpa using this
      · rw [hstate]
        intro p hp
        rcases List.mem_append.mp hp with hp | hp
        · obtain ⟨hmem, hne⟩ := (mem_eraseKey k _ p).mp hp
          obtain ⟨h1, h2, h3⟩ := ih.times p hmem
          refine times_extend cap ops _ p h1 h2 h3 ?_
          rw [touches_at_end]
          have : ¬ (k = p.1) := fun h => hne h.symm
          simp [this]
        · rw [List.mem_singleton] at hp
          subst hp
          refine ⟨?_, ?_, ?_⟩
          · show ops.length < (ops ++ [CacheOp.get k]).length
            simp
          · show touches cap (ops ++ [CacheOp.get k]) ops.length k = true
            rw [touches_at_end]
            simp [hasKey, hlk]
          · intro j hj
            have hj2 : ops.length < j := hj
            exact touches_beyond cap _ j
              (by simp only [List.length_append, List.length_singleton]; omega) _
  | put k v =>
    have hncap : ¬ (cap ≤ 0) := by omega
    have hsub : (eraseKey k (trun cap ops)).Sublist (trun cap ops) :=
      eraseKey_sublist k _
    have hbelow : ∀ p ∈ eraseKey k (trun cap ops), p.2.2 < ops.length := by
      intro p hp
      exact (ih.times p ((mem_eraseKey k _ p).mp hp).1).1
    by_cases hcl : ((eraseKey k (trun cap ops)).length : Int) = cap
    · have hstate : trun cap (ops ++ [CacheOp.put k v]) =
          (eraseKey k (trun cap ops)).drop 1 ++ [(k, (v, ops.length))] := by
        rw [hrun]; simp [tstep, hncap, hcl]
      have hdsub : ((eraseKey k (trun cap ops)).drop 1).Sublist
          (eraseKey k (trun cap ops)) := List.drop_sublist 1 _
      refine ⟨?_, ?_, ?_, ?_⟩
      · rw [hstate]
        have hpos : 1 ≤ (eraseKey k (trun cap ops)).length := by omega
        simp only [List.length_append, List.length_singleton, List.length_drop]
        omega
      · rw [hstate]
        simp only [List.map_append, List.map_cons, List.map_nil]
        rw [List.nodup_append]
        refine ⟨ih.nodup.sublist ((hdsub.trans hsub).map Prod.fst),
          List.nodup_singleton k, ?_⟩
        intro a ha hb
        rw [List.mem_singleton] at hb
        exact not_mem_keys_eraseKey k _ ((hdsub.map Prod.fst).subset (hb ▸ ha))
      · rw [hstate]
        rw [List.pairwise_append]
        refine ⟨ih.sorted.sublist (hdsub.trans hsub), List.pairwise_singleton _ _, ?_⟩
        intro a ha b hb
        rw [List.mem_singleton] at hb
        subst hb
        simpa using hbelow a (hdsub.subset ha)
      · rw [hstate]
        intro p hp
        rcases List.mem_append.mp hp with hp | hp
        · have hp' := hdsub.subset hp
          obtain ⟨hmem, hne⟩ := (mem_eraseKey k _ p).mp hp'
          obtain ⟨h1, h2, h3⟩ := ih.times p hmem
          refine times_extend cap ops _ p h1 h2 h3 ?_
          rw [touches_at_end]
          have : ¬ (k = p.1) := fun h => hne h.symm
          simp [this]
        · rw [List.mem_singleton] at hp
          subst hp
          refine ⟨?_, ?_, ?_⟩
          · show ops.length < (ops ++ [CacheOp.put k v]).length
            simp
          · show touches cap (ops ++ [CacheOp.put k v]) ops.length k = true
            rw [touches_at_end]
            simp
          · intro j hj
            have hj2 : ops.length < j := hj
            exact touches_beyond cap _ j
              (by simp only [List.length_append, List.length_singleton]; omega) _
    · have hstate : trun cap (ops ++ [CacheOp.put k v]) =
          eraseKey k (trun cap ops) ++ [(k, (v, ops.length))] := by
        rw [hrun]; simp [tstep, hncap, hcl]
      refine ⟨?_, ?_, ?_, ?_⟩
      · rw [hstate]
        have h1 : (eraseKey k (trun cap ops)).length ≤ (trun cap ops).length :=
          length_eraseKey_le k _
        have := ih.bound
        simp only [List.length_append, List.length_singleton]
        omega
      · rw [hstate]
        simp only [List.map_append, List.map_cons, List.map_nil]
        rw [List.nodup_append]
        refine ⟨ih.nodup.sublist (hsub.map Prod.fst), List.nodup_singleton k, ?_⟩
        intro a ha hb
        rw [List.mem_singleton] at hb
        exact not_mem_keys_eraseKey k _ (hb ▸ ha)
      · rw [hstate]
        rw [List.pairwise_append]
        refine ⟨ih.sorted.sublist hsub, List.pairwise_singleton _ _, ?_⟩
        intro a ha b hb
        rw [List.mem_singleton] at hb
        subst hb
        simpa using hbelow a ha
      · rw [hstate]
        intro p hp
        rcases List.mem_append.mp hp with hp | hp
        · obtain ⟨hmem, hne⟩ := (mem_eraseKey k _ p).mp hp
          obtain ⟨h1, h2, h3⟩ := ih.times p hmem
          refine times_extend cap ops _ p h1 h2 h3 ?_
          rw [touches_at_end]
          have : ¬ (k = p.1) := fun h => hne h.symm
          simp [this]
        · rw [List.mem_singleton] at hp
          subst hp
          refine ⟨?_, ?_, ?_⟩
          · show ops.length < (ops ++ [CacheOp.put k v]).length
            simp
          · show touches cap (ops ++ [CacheOp.put k v]) ops.length k = true
            rw [touches_at_end]
            simp
          · intro j hj
            have hj2 : ops.length < j := hj
            exact touches_beyond cap _ j
              (by simp only [List.length_append, List.length_singleton]; omega) _

theorem lruInv (cap : Int) (hcap : 1 ≤ cap) (ops : List CacheOp) :
    LruInv cap ops := by
  induction ops using List.reverseRecOn with
  | nil => exact lruInv_nil cap hcap
  | append_singleton l op ih => exact lruInv_snoc cap hcap l op ih

/-! ## Claim C1: LRU correctness of the content cache -/

/-- **C1.** For every sequence of `__set`/`__get` operations with fixed
capacity `C ≥ 1`, the cache holds at most `C` entries; `getLeastRecent`
returns `undefined` on the empty cache and otherwise the `(url, entry)`
pair least recently touched (`put` and `get` hits being the touches); a
`__get` miss has no side effect and a `__get` hit moves the binding to the
most-recently-used position. -/
theorem lru_cache_correct (cap : Int) (hcap : 1 ≤ cap) (ops : List CacheOp) :
    ((cacheRun cap ops).length : Int) ≤ cap ∧
    (cacheRun cap ops = [] → getLeastRecent (cacheRun cap ops) = none) ∧
    (∀ p ∈ cacheRun cap ops, ∃ q, getLeastRecent (cacheRun cap ops) = some q ∧
      q ∈ cacheRun cap ops ∧ lastTouch cap ops q.1 ≤ lastTouch cap ops p.1) ∧
    (∀ c k, hasKey k c = false → cacheGet c k = (none, c)) ∧
    (∀ c k v, lookupKey k c = some v →
      getMostRecent ((cacheGet c k).2) = some (k, v)) := by
  have inv := lruInv cap hcap ops
  have hs : stripT (trun cap ops) = cacheRun cap ops := trun_strip cap ops
  refine ⟨?_, ?_, ?_, ?_, ?_⟩
  · rw [← hs, stripT_length]
    exact inv.bound
  · intro h
    rw [h]
    rfl
  · intro p hp
    rw [← hs] at hp
    obtain ⟨e, he, hep⟩ := List.mem_map.mp hp
    cases htr : trun cap ops with
    | nil => rw [htr] at he; cases he
    | cons e0 rest =>
      have hq : getLeastRecent (cacheRun cap ops) = some (e0.1, e0.2.1) := by
        rw [← hs, htr]
        rfl
      refine ⟨(e0.1, e0.2.1), hq, ?_, ?_⟩
      · rw [← hs, htr]
        exact List.mem_map_of_mem _ (List.mem_cons_self _ _)
      · have ht0 := inv.times e0 (by rw [htr]; exact List.mem_cons_self _ _)
        have hte := inv.times e he
        have l0 : lastTouch cap ops e0.1 = e0.2.2 :=
          lastTouch_eq _ _ _ _ ht0.2.1 ht0.2.2 ht0.1
        have le0 : lastTouch cap ops e.1 = e.2.2 :=
          lastTouch_eq _ _ _ _ hte.2.1 hte.2.2 hte.1
        have hord : e0.2.2 ≤ e.2.2 := by
          have hsort := inv.sorted
          rw [htr] at hsort he
          rcases List.mem_cons.mp he with h | h
          · rw [h]
          · exact Nat.le_of_lt ((List.pairwise_cons.mp hsort).1 e h)
        have hp1 : p.1 = e.1 := by rw [← hep]
        have hq1 : ((e0.1, e0.2.1) : String × CacheEntry).1 = e0.1 := rfl
        rw [hq1, hp1, l0, le0]
        exact hord
  · intro c k h
    have hl : lookupKey k c = none := by
      cases hlc : lookupKey k c with
      | none => rfl
      | some v => rw [hasKey, hlc] at h; cases h
    simp [cacheGet, hl]
  · intro c k v h
    simp only [cacheGet, h, getMostRecent, List.length_append,
      List.length_singleton, Nat.add_sub_cancel]
    exact List.get?_concat_length _ _

/-- A concrete run for the witness: capacity 2, ops put A, put B, get A,
put C (B is evicted, A was promoted by the hit). -/
def opsW : List CacheOp :=
  [CacheOp.put "A" ⟨"A", "a", 0⟩, CacheOp.put "B" ⟨"B", "b", 1⟩,
   CacheOp.get "A", CacheOp.put "C" ⟨"C", "c", 2⟩]

/-- Witness for C1 at capacity 2 and the concrete run `opsW`. -/
theorem lru_cache_correct_witness :
    ((cacheRun 2 opsW).length : Int) ≤ 2 ∧
    (cacheRun 2 opsW = [] → getLeastRecent (cacheRun 2 opsW) = none) ∧
    (∀ p ∈ cacheRun 2 opsW, ∃ q, getLeastRecent (cacheRun 2 opsW) = some q ∧
      q ∈ cacheRun 2 opsW ∧ lastTouch 2 opsW q.1 ≤ lastTouch 2 opsW p.1) ∧
    (∀ c k, hasKey k c = false → cacheGet c k = (none, c)) ∧
    (∀ c k v, lookupKey k c = some v →
      getMostRecent ((cacheGet c k).2) = some (k, v)) :=
  lru_cache_correct 2 (by decide) opsW

/-! ## Claim C7: capacity ≤ 0 disables retention -/

/-- **C7.** With `cacheCapacity ≤ 0` every `__set` still returns the
constructed entry, but nothing is retained: from the empty start state the
cache stays empty under every operation sequence, no step mutates it, and
every subsequent `__get` is a miss. -/
theorem cache_disabled_correct (cap : Int) (hcap : cap ≤ 0)
    (ops : List CacheOp) (c : Cache) (k : String) (v : CacheEntry) :
    cacheRun cap ops = [] ∧
    (cacheSet cap c k v).1 = v ∧
    (∀ op, cacheStep cap [] op = []) ∧
    (cacheGet (cacheRun cap ops) k).1 = none ∧
    getLeastRecent (cacheRun cap ops) = none := by
  have hstep : ∀ op, cacheStep cap [] op = [] := by
    intro op
    cases op with
    | get k2 => rfl
    | put k2 v2 => simp [cacheStep, cacheSet, eraseKey, hcap]
  have hrun : ∀ l : List CacheOp, cacheRun cap l = [] := by
    intro l
    induction l with
    | nil => rfl
    | cons op rest ih =>
      show List.foldl (cacheStep cap) (cacheStep cap [] op) rest = []
      rw [hstep op]
      exact ih
  refine ⟨hrun ops, ?_, hstep, ?_, ?_⟩
  · simp [cacheSet, hcap]
  · rw [hrun ops]
    rfl
  · rw [hrun ops]
    rfl

/-- Witness for C7 at capacity 0. -/
theorem cache_disabled_correct_witness :
    cacheRun 0 [CacheOp.put "A" ⟨"A", "a", 0⟩] = [] ∧
    (cacheSet 0 [("B", ⟨"B", "b", 1⟩)] "A" ⟨"A", "a", 0⟩).1 = ⟨"A", "a", 0⟩ ∧
    (∀ op, cacheStep 0 [] op = []) ∧
    (cacheGet (cacheRun 0 [CacheOp.put "A" ⟨"A", "a", 0⟩]) "A").1 = none ∧
    getLeastRecent (cacheRun 0 [CacheOp.put "A" ⟨"A", "a", 0⟩]) = none :=
  cache_disabled_correct 0 (by decide) [CacheOp.put "A" ⟨"A", "a", 0⟩]
    [("B", ⟨"B", "b", 1⟩)] "A" ⟨"A", "a", 0⟩

/-! ## The navigation controller, fetch pipeline and history stack

The asynchronous behaviour of `navigate` / `fetchLink` / `waitFetch` /
`updateDocument` is embedded as an explicit event system: a `setTimeout`
callback becomes a queued `NavTask`, an outstanding `window.fetch` becomes
a queued `NetReq`, and the cooperative scheduler delivers `timerFire` /
`netRespond` events.  Hook invocations are accumulated in a log. -/

/-- Lifecycle hook invocations (`onNavigate`, `onLoadingChange`,
`onBeforeLeave`, `onBeforeRender`, `onError`). -/
inductive Hook where
  | onNavigate (url : String)
  | loadingChange (b : Bool)
  | beforeLeave
  | beforeRender
  | onError
deriving Repr, DecidableEq

/-- A router history entry `{url, title, state, scroll}`.  The opaque
`historyState` object is modelled by an optional number. -/
structure HistoryEntry where
  url : String
  title : String
  state : Option Nat
  scroll : Int
deriving Repr, DecidableEq

/-- The pending body of one `setTimeout` scheduled by `navigate`:
its URL, history state, `updateHistory` flag and `step`. -/
structure NavTask where
  url : String
  hs : Option Nat
  upd : Bool
  step : Int
deriving Repr, DecidableEq

/-- One outstanding `window.fetch`, with the waiter (`resolve`/`reject`
pair of `waitFetch`) if the fetch was started on behalf of a navigation;
preload fetches have no waiter. -/
structure NetReq where
  url : String
  waiter : Option NavTask
deriving Repr, DecidableEq

/-- The recognized configuration options that the modelled core reads. -/
structure PathwayOptions where
  cacheCapacity : Int
  historyStackSize : Int
  scrollRestoration : Bool
deriving Repr, DecidableEq

/-- The full router state: the `Pathway` instance fields plus the
browser-owned state it mutates (document title, native history stack,
container content, scroll position) and the scheduler queues. -/
structure Router where
  cache : Cache
  history : List HistoryEntry
  isLoading : Bool
  title : String
  containerContent : Nat
  scrollY : Int
  nativeHistory : List (Option Nat × String)
  hookLog : List Hook
  timers : List NavTask
  netPending : List NetReq
  requestLog : List String
deriving Repr, DecidableEq

/-- The `TypeError` thrown by a property access on `undefined`. -/
inductive JsError where
  | typeError
deriving Repr, DecidableEq

/-- `Math.trunc(code/100) * 100` from `fetchLink` (statuses are
non-negative integers, so `Nat` division is truncation). -/
def roundCodeNumber (code : Nat) : Nat :=
  code / 100 * 100

/-- `history.replaceState`: replace the top native history entry. -/
def replaceTop (l : List (Option Nat × String)) (x : Option Nat × String) :
    List (Option Nat × String) :=
  match l with
  | [] => [x]
  | _ => l.dropLast ++ [x]

/-- The history-stack update in `updateDocument`:
`splice(0, length - historyStackSize)` **then** `push(entry)` (a negative
splice count removes nothing). -/
def recordEntry (size : Int) (h : List HistoryEntry) (e : HistoryEntry) :
    List HistoryEntry :=
  h.drop ((h.length : Int) - size).toNat ++ [e]

/-- JS array indexing `h[i]` with an `Int` index (`undefined` when out of
range). -/
def histAt (h : List HistoryEntry) (i : Int) : Option HistoryEntry :=
  if i < 0 then none else h.get? i.toNat

/-- Embedding of `Pathway.prototype.updateDocument(data, historyState,
updateHistory, step)`.  `data` is `undefined` (`none`) when the fetch
failed; the very first statement of either branch reads `data.url`, so an
`undefined` entry throws before any mutation.  Otherwise: push or replace
native history, record the router history entry only in the push branch,
set the title, invoke `onBeforeRender`, swap the container content, and
finally apply scroll restoration. -/
def updateDocument (opts : PathwayOptions) (r : Router)
    (data : Option CacheEntry) (hs : Option Nat) (updateHistory : Bool)
    (step : Int) : Except JsError Router :=
  match data with
  | none => Except.error JsError.typeError
  | some d =>
    let r1 :=
      if updateHistory then
        { r with
          nativeHistory := r.nativeHistory ++ [(hs, d.url)],
          history := recordEntry opts.historyStackSize r.history
            { url := d.url, title := d.title, state := hs, scroll := r.scrollY } }
      else
        { r with nativeHistory := replaceTop r.nativeHistory (hs, d.url) }
    let r2 := { r1 with title := d.title }
    let r3 := { r2 with hookLog := r2.hookLog ++ [Hook.beforeRender] }
    let r4 := { r3 with containerContent := d.content }
    if opts.scrollRestoration then
      let pos : Int :=
        if step < 0 then
          ((histAt r4.history ((r4.history.length : Int) + step)).map
            (fun e => e.scroll)).getD 0
        else 0
      Except.ok { r4 with scrollY := pos }
    else
      Except.ok r4

/-- Running the `navigate` continuation after `waitFetch` settles: a
thrown `TypeError` leaves every router field untouched. -/
def applyUpdate (opts : PathwayOptions) (r : Router) (data : Option CacheEntry)
    (t : NavTask) : Router :=
  match updateDocument opts r data t.hs t.upd t.step with
  | Except.ok r2 => r2
  | Except.error _ => r

/-- Embedding of `Pathway.prototype.navigate(url, historyState,
updateHistory, step)`: rejected outright when `isLoading` is set;
otherwise invoke `onNavigate` and schedule the `setTimeout` body. -/
def navigate (_opts : PathwayOptions) (r : Router) (url : String)
    (hs : Option Nat) (upd : Bool) (step : Int) : Router :=
  if r.isLoading then r
  else
    { r with
      hookLog := r.hookLog ++ [Hook.onNavigate url],
      timers := r.timers ++ [{ url := url, hs := hs, upd := upd, step := step }] }

/-- The part of `fetchLink` that issues the network request: set
`isLoading`, invoke `onLoadingChange(true)`, issue `window.fetch` (logged
in `requestLog`) and register the outstanding request. -/
def startFetch (r : Router) (url : String) (w : Option NavTask) : Router :=
  { r with
    isLoading := true,
    hookLog := r.hookLog ++ [Hook.loadingChange true],
    requestLog := r.requestLog ++ [url],
    netPending := r.netPending ++ [{ url := url, waiter := w }] }

/-- Embedding of `Pathway.prototype.fetchLink(url, resolve, reject)`:
with a waiter, a cache hit resolves immediately from `__get` (the waiter
continuation then runs `updateDocument`); otherwise — and always when no
waiter is attached — a network request is issued. -/
def fetchLink (opts : PathwayOptions) (r : Router) (url : String)
    (w : Option NavTask) : Router :=
  match w with
  | some t =>
    if hasKey url r.cache then
      let res := cacheGet r.cache url
      applyUpdate opts { r with cache := res.2 } res.1 t
    else startFetch r url (some t)
  | none => startFetch r url none

/-- Delivery of the `setTimeout` body scheduled by `navigate`: invoke
`onBeforeLeave`, then `waitFetch` enters `fetchLink` with the waiter. -/
def timerFire (opts : PathwayOptions) (r : Router) : Router :=
  match r.timers with
  | [] => r
  | t :: rest =>
    fetchLink opts
      { r with timers := rest, hookLog := r.hookLog ++ [Hook.beforeLeave] }
      t.url (some t)

/-- The outcome of one network request: a response with a status code and
parsed document (title and container fragment), or a transport-level
rejection. -/
inductive Outcome where
  | response (status : Nat) (title : String) (content : Nat)
  | netError
deriving Repr, DecidableEq

/-- The failure path of `fetchLink`'s promise chain: the `catch` handler
invokes `onError` (after `reject`, whose waiter continuation is the
`waitFetch` catch returning `undefined`, so `updateDocument` throws on the
`undefined` entry and changes nothing), then `finally` clears `isLoading`
and invokes `onLoadingChange(false)`. -/
def fetchFail (opts : PathwayOptions) (r : Router) (req : NetReq) : Router :=
  let r1 := { r with hookLog := r.hookLog ++ [Hook.onError] }
  let r2 :=
    match req.waiter with
    | some t => applyUpdate opts r1 none t
    | none => r1
  { r2 with isLoading := false, hookLog := r2.hookLog ++ [Hook.loadingChange false] }

/-- Settlement of outstanding request `i`: on a 2xx response (by
`roundCodeNumber`) the parsed document is stored via `cacheResponse`
(`__set`) and the waiter is resolved with the returned entry, after which
`finally` clears `isLoading`; any other status or a transport rejection
takes the failure path. -/
def netRespond (opts : PathwayOptions) (r : Router) (i : Nat)
    (oc : Outcome) : Router :=
  match r.netPending.get? i with
  | none => r
  | some req =>
    let r1 := { r with netPending := r.netPending.eraseIdx i }
    match oc with
    | Outcome.response status title content =>
      if roundCodeNumber status = 200 then
        let sr := cacheSet opts.cacheCapacity r1.cache req.url
          { url := req.url, title := title, content := content }
        let r2 := { r1 with cache := sr.2 }
        let r3 :=
          match req.waiter with
          | some t => applyUpdate opts r2 (some sr.1) t
          | none => r2
        { r3 with
          isLoading := false,
          hookLog := r3.hookLog ++ [Hook.loadingChange false] }
      else fetchFail opts r1 req
    | Outcome.netError => fetchFail opts r1 req

/-- External events delivered to the router: a qualifying link click, a
`popstate` (back/forward) notification, a scheduled timer firing, a
network settlement, and a preload `fetchLink` without waiter. -/
inductive Ev where
  | click (url : String) (hs : Option Nat) (upd : Bool)
  | popstate (url : String)
  | timer
  | net (i : Nat) (oc : Outcome)
  | preload (url : String)
deriving Repr, DecidableEq

/-- One event step.  A click runs `navigate(url, state, updateHistory)`
with the default `step = 1`; `popstate` runs
`navigate(location.href, null, false, -1)` as wired in `initEvents`. -/
def stepEv (opts : PathwayOptions) (r : Router) : Ev → Router
  | Ev.click url hs upd => navigate opts r url hs upd 1
  | Ev.popstate url => navigate opts r url none false (-1)
  | Ev.timer => timerFire opts r
  | Ev.net i oc => netRespond opts r i oc
  | Ev.preload url => fetchLink opts r url none

/-- Deliver a sequence of events. -/
def runEv (opts : PathwayOptions) (r : Router) (evs : List Ev) : Router :=
  evs.foldl (stepEv opts) r

/-- The constructor: seed the cache with the current document via
`cacheResponse`, push the initial history entry, idle state. -/
def initRouter (opts : PathwayOptions) (url0 title0 : String)
    (content0 : Nat) : Router :=
  let seeded := cacheSet opts.cacheCapacity [] url0
    { url := url0, title := title0, content := content0 }
  { cache := seeded.2,
    history := [{ url := url0, title := title0, state := none, scroll := 0 }],
    isLoading := false,
    title := title0,
    containerContent := content0,
    scrollY := 0,
    nativeHistory := [(none, url0)],
    hookLog := [],
    timers := [],
    netPending := [],
    requestLog := [] }

/-! ### Helper lemmas about the pipeline -/

/-- Number of `onError` hook invocations so far. -/
def errCount (r : Router) : Nat :=
  r.hookLog.count Hook.onError

/-- A failing outcome: transport rejection, or a response whose status is
not in the 2xx class under hundreds-rounding. -/
def failingOutcome : Outcome → Prop
  | Outcome.response s _ _ => roundCodeNumber s ≠ 200
  | Outcome.netError => True

theorem applyUpdate_some_hookLog (opts : PathwayOptions) (r : Router)
    (d : CacheEntry) (t : NavTask) :
    (applyUpdate opts r (some d) t).hookLog =
      r.hookLog ++ [Hook.beforeRender] := by
  unfold applyUpdate updateDocument
  cases hu : t.upd <;> cases hsr : opts.scrollRestoration <;> simp [hu, hsr]

theorem fetchFail_fields (opts : PathwayOptions) (r : Router) (req : NetReq) :
    (fetchFail opts r req).isLoading = false ∧
    (fetchFail opts r req).hookLog =
      r.hookLog ++ [Hook.onError, Hook.loadingChange false] ∧
    (fetchFail opts r req).history = r.history ∧
    (fetchFail opts r req).nativeHistory = r.nativeHistory ∧
    (fetchFail opts r req).title = r.title ∧
    (fetchFail opts r req).containerContent = r.containerContent ∧
    (fetchFail opts r req).timers = r.timers := by
  unfold fetchFail
  cases hw : req.waiter <;> simp [applyUpdate, updateDocument]

theorem netRespond_failing (opts : PathwayOptions) (r : Router) (i : Nat)
    (req : NetReq) (h : r.netPending.get? i = some req) (oc : Outcome)
    (hf : failingOutcome oc) :
    netRespond opts r i oc =
      fetchFail opts { r with netPending := r.netPending.eraseIdx i } req := by
  have h2 : r.netPending[i]? = some req := by
    rw [← List.get?_eq_getElem?]
    exact h
  cases oc with
  | response s ti co =>
    have hs : roundCodeNumber s ≠ 200 := hf
    simp [netRespond, h2, hs]
  | netError => simp [netRespond, h2]

theorem errCount_fetchFail (opts : PathwayOptions) (r : Router) (req : NetReq) :
    errCount (fetchFail opts r req) = errCount r + 1 := by
  have h := (fetchFail_fields opts r req).2.1
  rw [errCount, h, List.count_append]
  rfl

/-! ## Claim C4: the navigation overlap guard -/

/-- Base options for concrete runs: the source defaults
(`cacheCapacity: 10`, `historyStackSize: 10`, `scrollRestoration:
false`). -/
def optsX : PathwayOptions :=
  { cacheCapacity := 10, historyStackSize := 10, scrollRestoration := false }

/-- A freshly constructed router on page "/" titled "Home". -/
def routerX : Router := initRouter optsX "/" "Home" 0

/-- **C4 is false as stated**: after `navigate` accepts a navigation the
`setTimeout` body is still pending (the navigation is in flight and not
completed), yet `isLoading` is still `false` — it is only set once the
fetch starts — so a second `navigate` call is accepted: it changes router
state and invokes the `onNavigate` hook. -/
theorem navigate_guard_counterexample :
    (stepEv optsX routerX (Ev.click "/a" none true)).timers ≠ [] ∧
    (stepEv optsX routerX (Ev.click "/a" none true)).isLoading = false ∧
    stepEv optsX (stepEv optsX routerX (Ev.click "/a" none true))
        (Ev.click "/b" none true) ≠
      stepEv optsX routerX (Ev.click "/a" none true) ∧
    (stepEv optsX (stepEv optsX routerX (Ev.click "/a" none true))
        (Ev.click "/b" none true)).hookLog =
      [Hook.onNavigate "/a", Hook.onNavigate "/b"] := by
  refine ⟨?_, ?_, ?_, ?_⟩ <;> decide

/-- **C4 (amended).** `navigate` is a no-op exactly while `isLoading` is
`true`; since `isLoading` only becomes `true` when a network fetch starts
(after the transition delay, and never on a pure cache hit), a `navigate`
issued during the transition delay of an accepted navigation is itself
accepted. -/
theorem navigate_noop_iff (opts : PathwayOptions) (r : Router) (url : String)
    (hs : Option Nat) (upd : Bool) (step : Int) :
    navigate opts r url hs upd step = r ↔ r.isLoading = true := by
  constructor
  · intro h
    cases hl : r.isLoading with
    | true => rfl
    | false =>
      have hlog : (navigate opts r url hs upd step).hookLog =
          r.hookLog ++ [Hook.onNavigate url] := by
        simp [navigate, hl]
      rw [h] at hlog
      have := congrArg List.length hlog
      simp at this
  · intro h
    simp [navigate, h]

/-! ## Claim C2: single-flight deduplication -/

/-- The event sequence of the C2 scenario: two navigations to the same
uncached URL are accepted, then the first timer fires and issues the
request. -/
def evsC2 : List Ev :=
  [Ev.click "/p" none true, Ev.click "/p" none true, Ev.timer]

/-- **C2 is false as stated**: after `evsC2` a request for "/p" is
outstanding; delivering the second pending timer while it is outstanding
issues a *second* network request for the same URL — there is no
in-flight registry. -/
theorem single_flight_counterexample :
    (runEv optsX routerX evsC2).netPending.length = 1 ∧
    (runEv optsX routerX evsC2).requestLog = ["/p"] ∧
    (stepEv optsX (runEv optsX routerX evsC2) Ev.timer).requestLog =
      ["/p", "/p"] := by
  refine ⟨?_, ?_, ?_⟩ <;> decide

/-- **C2 (amended).** There is no single-flight deduplication: every
`waitFetch`/`fetchLink` entry for an uncached URL issues its own network
request and registers its own waiter — regardless of any outstanding
request for the same URL — so each caller settles from its own request's
outcome. -/
theorem fetch_no_dedup (opts : PathwayOptions) (r : Router) (url : String)
    (t : NavTask) (h : hasKey url r.cache = false) :
    (fetchLink opts r url (some t)).requestLog = r.requestLog ++ [url] ∧
    (fetchLink opts r url (some t)).netPending =
      r.netPending ++ [{ url := url, waiter := some t }] := by
  simp [fetchLink, h, startFetch]

/-- Witness for the amended C2 on a concrete uncached URL. -/
theorem fetch_no_dedup_witness :
    (fetchLink optsX routerX "/p" (some ⟨"/p", none, true, 1⟩)).requestLog =
      routerX.requestLog ++ ["/p"] ∧
    (fetchLink optsX routerX "/p" (some ⟨"/p", none, true, 1⟩)).netPending =
      routerX.netPending ++ [{ url := "/p", waiter := some ⟨"/p", none, true, 1⟩ }] :=
  fetch_no_dedup optsX routerX "/p" ⟨"/p", none, true, 1⟩ (by decide)

/-! ## Claim C3: the history stack bound -/

/-- **C3 is violated by the code**: `updateDocument` trims the history
stack with `splice(0, length - historyStackSize)` *before* pushing, so
with `historyStackSize = 1` recording two entries onto an empty stack
leaves 2 entries; in general the stack settles at `historyStackSize + 1`
entries (final conjunct), exceeding the documented maximum. -/
theorem history_bound_violation :
    recordEntry 1 (recordEntry 1 [] ⟨"/a", "A", none, 0⟩) ⟨"/b", "B", none, 0⟩ =
      [⟨"/a", "A", none, 0⟩, ⟨"/b", "B", none, 0⟩] ∧
    ¬ ((recordEntry 1 (recordEntry 1 [] ⟨"/a", "A", none, 0⟩)
        ⟨"/b", "B", none, 0⟩).length ≤ 1) ∧
    (∀ (K : Int) (h : List HistoryEntry) (e : HistoryEntry),
      h.length ≤ K.toNat + 1 → (recordEntry K h e).length ≤ K.toNat + 1) := by
  refine ⟨by decide, by decide, ?_⟩
  intro K h e hb
  simp only [recordEntry, List.length_append, List.length_drop,
    List.length_singleton]
  omega

/-! ## Claim C5: HTTP status classification -/

/-- **C5.** Settling a request fails (the `onError` hook fires and the
waiter, if any, is rejected) exactly when the transport rejects or the
status is outside the 2xx class under hundreds-rounding; hundreds-rounding
accepts exactly the statuses 200–299, so 200, 204 and 299 are accepted
while 301, 404 and 500 are rejected. -/
theorem status_classification (opts : PathwayOptions) (r : Router) (i : Nat)
    (req : NetReq) (h : r.netPending.get? i = some req) (s : Nat)
    (ti : String) (co : Nat) :
    (errCount (netRespond opts r i (Outcome.response s ti co)) =
        errCount r + 1 ↔ roundCodeNumber s ≠ 200) ∧
    errCount (netRespond opts r i Outcome.netError) = errCount r + 1 ∧
    (∀ s2 : Nat, roundCodeNumber s2 = 200 ↔ 200 ≤ s2 ∧ s2 ≤ 299) ∧
    roundCodeNumber 200 = 200 ∧ roundCodeNumber 204 = 200 ∧
    roundCodeNumber 299 = 200 ∧ roundCodeNumber 301 ≠ 200 ∧
    roundCodeNumber 404 ≠ 200 ∧ roundCodeNumber 500 ≠ 200 := by
  have h2 : r.netPending[i]? = some req := by
    rw [← List.get?_eq_getElem?]
    exact h
  have cbr : List.count Hook.onError [Hook.beforeRender] = 0 := by decide
  have clc : List.count Hook.onError [Hook.loadingChange false] = 0 := by decide
  have hsucc : roundCodeNumber s = 200 →
      errCount (netRespond opts r i (Outcome.response s ti co)) = errCount r := by
    intro hr
    simp only [netRespond, List.get?_eq_getElem?, h2, hr, if_pos]
    cases hw : req.waiter with
    | some t =>
      simp [errCount, List.count_append, applyUpdate_some_hookLog, hw, cbr, clc]
    | none =>
      simp [errCount, List.count_append, hw, clc]
  have hfailresp : roundCodeNumber s ≠ 200 →
      errCount (netRespond opts r i (Outcome.response s ti co)) =
        errCount r + 1 := by
    intro hr
    rw [netRespond_failing opts r i req h (Outcome.response s ti co) hr,
      errCount_fetchFail]
    rfl
  refine ⟨⟨?_, hfailresp⟩, ?_, ?_, by decide, by decide, by decide, by decide,
    by decide, by decide⟩
  · intro hc hr
    rw [hsucc hr] at hc
    omega
  · rw [netRespond_failing opts r i req h Outcome.netError trivial,
      errCount_fetchFail]
    rfl
  · intro s2
    unfold roundCodeNumber
    omega

/-- A navigation task and pending request used by the concrete witnesses:
a popstate-style navigation to "/p" whose fetch is outstanding. -/
def reqX : NetReq := { url := "/p", waiter := some ⟨"/p", none, false, -1⟩ }

/-- The router state with the "/p" fetch in flight. -/
def routerPend : Router :=
  { routerX with
    isLoading := true,
    netPending := [reqX],
    requestLog := ["/p"],
    hookLog := [Hook.onNavigate "/p", Hook.beforeLeave, Hook.loadingChange true] }

/-- Witness for C5: settling the outstanding request with status 404. -/
theorem status_classification_witness :
    (errCount (netRespond optsX routerPend 0 (Outcome.response 404 "NF" 9)) =
        errCount routerPend + 1 ↔ roundCodeNumber 404 ≠ 200) ∧
    errCount (netRespond optsX routerPend 0 Outcome.netError) =
      errCount routerPend + 1 ∧
    (∀ s2 : Nat, roundCodeNumber s2 = 200 ↔ 200 ≤ s2 ∧ s2 ≤ 299) ∧
    roundCodeNumber 200 = 200 ∧ roundCodeNumber 204 = 200 ∧
    roundCodeNumber 299 = 200 ∧ roundCodeNumber 301 ≠ 200 ∧
    roundCodeNumber 404 ≠ 200 ∧ roundCodeNumber 500 ≠ 200 :=
  status_classification optsX routerPend 0 reqX (by decide) 404 "NF" 9

/-! ## Claim C8: failures restore the idle state -/

/-- **C8.** When the fetch pipeline fails (transport rejection or non-2xx
status), the `onError` hook is invoked, `isLoading` ends up `false`, and a
subsequent `navigate` is accepted: it schedules its timer and invokes its
`onNavigate` hook. -/
theorem failure_restores_idle (opts : PathwayOptions) (r : Router) (i : Nat)
    (req : NetReq) (h : r.netPending.get? i = some req) (oc : Outcome)
    (hf : failingOutcome oc) :
    (netRespond opts r i oc).isLoading = false ∧
    Hook.onError ∈ (netRespond opts r i oc).hookLog ∧
    (∀ url hs upd step,
      (navigate opts (netRespond opts r i oc) url hs upd step).timers =
        (netRespond opts r i oc).timers ++
          [{ url := url, hs := hs, upd := upd, step := step }] ∧
      (navigate opts (netRespond opts r i oc) url hs upd step).hookLog =
        (netRespond opts r i oc).hookLog ++ [Hook.onNavigate url]) := by
  rw [netRespond_failing opts r i req h oc hf]
  obtain ⟨h1, h2, -, -, -, -, -⟩ :=
    fetchFail_fields opts { r with netPending := r.netPending.eraseIdx i } req
  refine ⟨h1, ?_, ?_⟩
  · rw [h2]
    simp
  · intro url hs upd step
    constructor <;> simp [navigate, h1]

/-- Witness for C8: the outstanding "/p" request rejects at transport
level. -/
theorem failure_restores_idle_witness :
    (netRespond optsX routerPend 0 Outcome.netError).isLoading = false ∧
    Hook.onError ∈ (netRespond optsX routerPend 0 Outcome.netError).hookLog ∧
    (∀ url hs upd step,
      (navigate optsX (netRespond optsX routerPend 0 Outcome.netError)
          url hs upd step).timers =
        (netRespond optsX routerPend 0 Outcome.netError).timers ++
          [{ url := url, hs := hs, upd := upd, step := step }] ∧
      (navigate optsX (netRespond optsX routerPend 0 Outcome.netError)
          url hs upd step).hookLog =
        (netRespond optsX routerPend 0 Outcome.netError).hookLog ++
          [Hook.onNavigate url]) :=
  failure_restores_idle optsX routerPend 0 reqX (by decide) Outcome.netError
    trivial

/-! ## Claim C6: popstate navigations and the router history -/

/-- The C6 scenario: a popstate navigation to the uncached URL "/p" that
completes successfully. -/
def evsC6 : List Ev :=
  [Ev.popstate "/p", Ev.timer, Ev.net 0 (Outcome.response 200 "P" 7)]

/-- **C6 is false as stated**: a back/forward (popstate) navigation runs
with `updateHistory = false` and completes — the container content is
swapped and the document title set — yet the router history stack is
unchanged: no `HistoryEntry` is recorded for the destination. -/
theorem popstate_record_counterexample :
    (runEv optsX routerX evsC6).containerContent = 7 ∧
    (runEv optsX routerX evsC6).title = "P" ∧
    (runEv optsX routerX evsC6).history = routerX.history ∧
    routerX.history.length = 1 := by
  refine ⟨?_, ?_, ?_, ?_⟩ <;> decide

/-- **C6 (amended).** A popstate navigation re-enters `navigate` with
`updateHistory = false` and `step = -1`; `updateDocument` then *replaces*
the top native history entry and records **no** router `HistoryEntry` —
the history stack is only updated in the `updateHistory = true` branch. -/
theorem popstate_no_record (opts : PathwayOptions) (r : Router) (url : String)
    (d : CacheEntry) (hs : Option Nat) (step : Int) :
    stepEv opts r (Ev.popstate url) = navigate opts r url none false (-1) ∧
    (∃ r2, updateDocument opts r (some d) hs false step = Except.ok r2 ∧
      r2.history = r.history ∧
      r2.nativeHistory = replaceTop r.nativeHistory (hs, d.url)) := by
  refine ⟨rfl, ?_⟩
  unfold updateDocument
  cases hsr : opts.scrollRestoration <;> simp [hsr]

/-! ## Claim C9: scroll restoration -/

/-- **C9.** With `scrollRestoration` enabled, completing `updateDocument`
with a backward step (`step < 0`) sets the scroll position to the scroll
offset of the history entry at index `length + step` (0 when that entry
is absent), and any `step ≥ 0` resets the scroll position to the top. -/
theorem scroll_restoration_correct (opts : PathwayOptions) (r : Router)
    (d : CacheEntry) (hs : Option Nat) (upd : Bool) (step : Int)
    (hsr : opts.scrollRestoration = true) :
    ∃ r2, updateDocument opts r (some d) hs upd step = Except.ok r2 ∧
      r2.scrollY = (if step < 0 then
        ((histAt r2.history ((r2.history.length : Int) + step)).map
          (fun e => e.scroll)).getD 0
        else 0) := by
  unfold updateDocument
  cases upd <;> simp [hsr]

/-- Options with scroll restoration enabled. -/
def optsS : PathwayOptions :=
  { cacheCapacity := 10, historyStackSize := 10, scrollRestoration := true }

/-- Witness for C9: a backward (`step = -1`) update on the fresh router. -/
theorem scroll_restoration_correct_witness :
    ∃ r2, updateDocument optsS routerX (some ⟨"/p", "P", 7⟩) none false (-1) =
        Except.ok r2 ∧
      r2.scrollY = (if (-1 : Int) < 0 then
        ((histAt r2.history ((r2.history.length : Int) + (-1))).map
          (fun e => e.scroll)).getD 0
        else 0) :=
  scroll_restoration_correct optsS routerX ⟨"/p", "P", 7⟩ none false (-1) rfl

/-! ## Claim C10: failed fetches reach updateDocument with undefined -/

/-- **C10.** `waitFetch` swallows a fetch rejection and resolves with
`undefined`, so `navigate`'s continuation calls `updateDocument` with an
`undefined` entry instead of skipping it; the very first property access
(`data.url`) throws, so the failed navigation leaves the router history,
native history, document title and container content untouched. -/
theorem failed_fetch_undefined_entry (opts : PathwayOptions) (r : Router)
    (i : Nat) (req : NetReq) (h : r.netPending.get? i = some req)
    (oc : Outcome) (hf : failingOutcome oc) :
    (∀ (r0 : Router) (hs : Option Nat) (upd : Bool) (step : Int),
      updateDocument opts r0 none hs upd step =
        Except.error JsError.typeError) ∧
    (netRespond opts r i oc).history = r.history ∧
    (netRespond opts r i oc).nativeHistory = r.nativeHistory ∧
    (netRespond opts r i oc).title = r.title ∧
    (netRespond opts r i oc).containerContent = r.containerContent := by
  rw [netRespond_failing opts r i req h oc hf]
  obtain ⟨-, -, h3, h4, h5, h6, -⟩ :=
    fetchFail_fields opts { r with netPending := r.netPending.eraseIdx i } req
  exact ⟨fun r0 hs upd step => rfl, h3, h4, h5, h6⟩

/-- Witness for C10: the outstanding "/p" request settles with status
500. -/
theorem failed_fetch_undefined_entry_witness :
    (∀ (r0 : Router) (hs : Option Nat) (upd : Bool) (step : Int),
      updateDocument optsX r0 none hs upd step =
        Except.error JsError.typeError) ∧
    (netRespond optsX routerPend 0 (Outcome.response 500 "E" 3)).history =
      routerPend.history ∧
    (netRespond optsX routerPend 0 (Outcome.response 500 "E" 3)).nativeHistory =
      routerPend.nativeHistory ∧
    (netRespond optsX routerPend 0 (Outcome.response 500 "E" 3)).title =
      routerPend.title ∧
    (netRespond optsX routerPend 0 (Outcome.response 500 "E" 3)).containerContent =
      routerPend.containerContent :=
  failed_fetch_undefined_entry optsX routerPend 0 reqX (by decide)
    (Outcome.response 500 "E" 3) (show roundCodeNumber 500 ≠ 200 by decide)
